import Mathlib

/-!
Verification development for the AMINA single-page chat client
(src/src/App.tsx).  The React component's state and its operations are
shallowly embedded: each `useState` cell becomes a field of an explicit
state record, each handler becomes a pure state-transformer, and the
`localStorage` key-value store becomes a record of optional values.

Conventions of the embedding:
* JS strings are modelled as Lean `String`; inside the stream decoder,
  where we reason about splitting, they are modelled as `List Char`
  (`String.toList` at the boundary).
* Timestamps (`Date.now()`, `new Date()`) are modelled as an explicit
  `now : Nat` parameter (milliseconds); `Date.now().toString()` becomes
  `toString now`.
* React closure semantics are modelled faithfully: a handler created in a
  render closes over that render's state values.  Calling a state setter
  does not change those captured values; only functional updates
  (`set (prev => ...)`) see the live state.  This matters for
  `handleSubmit`, whose deferred `updateCurrentConversation` call and
  whose `processChunk` callback both capture the render-time
  `currentConversationId`.
* `localStorage` serialization (`JSON.stringify`/`JSON.parse` of the
  conversation list) is modelled as storing the structured value itself;
  a missing or unparsable key is the `none` case.
-/

namespace AMINA

/-- Message sender; the source uses the string union `"user" | "llm"`. -/
inductive Sender where
  | user
  | llm
  deriving DecidableEq

/-- Source `interface Message` (App.tsx lines 5-9): text, sender, optional image URL. -/
structure Message where
  text : String
  sender : Sender
  imageUrl : Option String
  deriving DecidableEq

/-- Source `interface Conversation` (App.tsx lines 11-17). -/
structure Conversation where
  id : String
  title : String
  messages : List Message
  createdAt : Nat
  updatedAt : Nat
  deriving DecidableEq

/-- Default endpoint base URL (App.tsx line 36, the documented default). -/
def API_BASE_URL : String := "http://192.168.1.174:1234/v1"

/-- Default model identifier (App.tsx line 38, the documented default). -/
def MODEL_NAME : String := "gemma-3-12b"

/-- The title a conversation carries until a real title is derived. -/
def placeholderTitle : String := "New Conversation"

/-- Source `generateConversationTitle` (App.tsx lines 424-428): truncate to the
first 30 characters plus an ellipsis marker when longer than 30. -/
def generateConversationTitle (firstMessage : String) : String :=
  if firstMessage.length > 30 then firstMessage.take 30 ++ "..."
  else firstMessage

/-- Text of the first message of a list (`newMessages[0].text`, reached
only under a `length > 0` guard in the source). -/
def firstText (msgs : List Message) : String :=
  match msgs with
  | [] => ""
  | m :: _ => m.text

/-- The per-conversation body of the `map` inside
`updateCurrentConversation` (App.tsx lines 458-467): replace the message
list, derive the title if it is still the placeholder and the list is
non-empty, and bump `updatedAt`. -/
def updateConv (newMessages : List Message) (now : Nat)
    (conv : Conversation) : Conversation :=
  { conv with
    messages := newMessages
    title :=
      if newMessages.length > 0 ∧ conv.title = placeholderTitle then
        generateConversationTitle (firstText newMessages)
      else conv.title
    updatedAt := now }

/-- The in-memory session state: the three `useState` cells the
conversation model operates on. -/
structure SessionState where
  conversations : List Conversation
  currentConversationId : Option String
  messages : List Message
  deriving DecidableEq

/-- The `setConversations(prev => prev.map(...))` call from
`updateCurrentConversation`, parameterised by the conversation id the
closure captured.  Matching the source, it is a no-op when the captured
id is `null`. -/
def applyUpdateCurrent (capturedId : Option String) (newMessages : List Message)
    (now : Nat) (convs : List Conversation) : List Conversation :=
  match capturedId with
  | some cid =>
      convs.map (fun conv =>
        if conv.id == cid then updateConv newMessages now conv else conv)
  | none => convs

/-- Source `updateCurrentConversation` (App.tsx lines 454-472) as a session-state
operation, in a context where the captured id is the current one. -/
def updateCurrentConversation (newMessages : List Message) (now : Nat)
    (s : SessionState) : SessionState :=
  { s with conversations :=
      applyUpdateCurrent s.currentConversationId newMessages now s.conversations }

/-- Source `createNewConversation` (App.tsx lines 430-443): allocate
`Date.now().toString()` as id, prepend, make active, clear the visible
message list, return the new id. -/
def createNewConversation (now : Nat) (s : SessionState) :
    String × SessionState :=
  let newId := toString now
  (newId,
    { conversations :=
        { id := newId, title := placeholderTitle, messages := []
          createdAt := now, updatedAt := now } :: s.conversations
      currentConversationId := some newId
      messages := [] })

/-- Source `selectConversation` (App.tsx lines 445-452): only switches when the
id is found. -/
def selectConversation (conversationId : String) (s : SessionState) :
    SessionState :=
  match s.conversations.find? (fun c => c.id == conversationId) with
  | some conversation =>
      { s with
        currentConversationId := some conversationId
        messages := conversation.messages }
  | none => s

/-- Source `deleteConversation` (App.tsx lines 474-480): filter the list; clear
the active id and visible messages when the deleted one was active. -/
def deleteConversation (conversationId : String) (s : SessionState) :
    SessionState :=
  let filtered := s.conversations.filter (fun c => c.id != conversationId)
  if s.currentConversationId = some conversationId then
    { conversations := filtered, currentConversationId := none, messages := [] }
  else { s with conversations := filtered }

/-! ### Persistence store -/

/-- The two `localStorage` keys the conversation model touches:
`"conversations"` (serialized list) and `"currentConversationId"`.
`none` models an absent key. -/
structure Store where
  conversationsKey : Option (List Conversation)
  currentIdKey : Option String
  deriving DecidableEq

/-- The save effect for conversations (App.tsx lines 105-109): write the
full list, but only when it is non-empty. -/
def saveConversationsEffect (conversations : List Conversation)
    (st : Store) : Store :=
  if conversations.length > 0 then { st with conversationsKey := some conversations }
  else st

/-- The save effect for the active id (App.tsx lines 112-118): write it
when set, remove the key when not. -/
def saveCurrentIdEffect (currentId : Option String) (st : Store) : Store :=
  match currentId with
  | some cid => { st with currentIdKey := some cid }
  | none => { st with currentIdKey := none }

/-- Both save effects, as they run after a committed state change. -/
def runSaveEffects (s : SessionState) (st : Store) : Store :=
  saveCurrentIdEffect s.currentConversationId
    (saveConversationsEffect s.conversations st)

/-- Combined in-memory state and durable store. -/
structure AppPersistState where
  session : SessionState
  store : Store
  deriving DecidableEq

/-- Operation `createNewConversation` followed by the save effects. -/
def createOp (now : Nat) (a : AppPersistState) : AppPersistState :=
  { session := (createNewConversation now a.session).2
    store := runSaveEffects (createNewConversation now a.session).2 a.store }

/-- Operation `selectConversation` followed by the save effects. -/
def selectOp (conversationId : String) (a : AppPersistState) : AppPersistState :=
  { session := selectConversation conversationId a.session
    store := runSaveEffects (selectConversation conversationId a.session) a.store }

/-- Operation `updateCurrentConversation` followed by the save effects. -/
def updateOp (newMessages : List Message) (now : Nat) (a : AppPersistState) :
    AppPersistState :=
  { session := updateCurrentConversation newMessages now a.session
    store :=
      runSaveEffects (updateCurrentConversation newMessages now a.session) a.store }

/-- Operation `deleteConversation` followed by the save effects. -/
def deleteOp (conversationId : String) (a : AppPersistState) : AppPersistState :=
  { session := deleteConversation conversationId a.session
    store := runSaveEffects (deleteConversation conversationId a.session) a.store }

/-- The load effect (App.tsx lines 64-102): take the conversation list
from storage when present; take the active id from storage
unconditionally when present; restore the visible messages only when the
stored id matches a stored conversation. -/
def loadState (st : Store) : SessionState :=
  let conversations :=
    match st.conversationsKey with
    | some l => l
    | none => []
  match st.currentIdKey with
  | some savedCurrentId =>
      { conversations := conversations
        currentConversationId := some savedCurrentId
        messages :=
          match st.conversationsKey with
          | some l =>
              match l.find? (fun c => c.id == savedCurrentId) with
              | some currentConv => currentConv.messages
              | none => []
          | none => [] }
  | none =>
      { conversations := conversations
        currentConversationId := none
        messages := [] }

/-- The referential-integrity check on the session state: when an active
id is set, some conversation in the list carries it. -/
def activeIdValid (s : SessionState) : Bool :=
  match s.currentConversationId with
  | some cid => s.conversations.any (fun c => c.id == cid)
  | none => true

/-! ### Sample data for counterexamples and witnesses -/

/-- A concrete stored conversation used in counterexamples. -/
def sampleConv : Conversation :=
  { id := "1", title := "t", messages := [], createdAt := 0, updatedAt := 0 }

/-- A concrete combined state: one conversation, active, mirrored in the store. -/
def sampleApp : AppPersistState :=
  { session :=
      { conversations := [sampleConv], currentConversationId := some "1"
        messages := [] }
    store := { conversationsKey := some [sampleConv], currentIdKey := some "1" } }

/-! ### Persistence write-back (C3) -/

/-- The conversations key after the save effects: overwritten with the full
current list when it is non-empty, untouched when it is empty. -/
theorem runSaveEffects_conversationsKey (s : SessionState) (st : Store) :
    (runSaveEffects s st).conversationsKey =
      if s.conversations.length > 0 then some s.conversations
      else st.conversationsKey := by
  unfold runSaveEffects saveCurrentIdEffect saveConversationsEffect
  split <;> split <;> rfl

/-- C3 counterexample: deleting the last remaining conversation empties the
in-memory list, but the save effect skips empty lists, so the store keeps
the previous serialized list instead of the current (empty) one. -/
theorem C3_delete_last_counterexample :
    (deleteOp "1" sampleApp).session.conversations = [] ∧
    (deleteOp "1" sampleApp).store.conversationsKey = some [sampleConv] ∧
    (deleteOp "1" sampleApp).store.conversationsKey ≠
      some (deleteOp "1" sampleApp).session.conversations := by
  decide

/-- C3 (amended): after a create, update or delete mutation the store holds
the full current conversation list whenever that list is non-empty; a
delete that empties the list leaves the store holding its previous
contents. -/
theorem C3_store_full_overwrite_on_mutation (a : AppPersistState) (now : Nat)
    (cid : String) (msgs : List Message) :
    (createOp now a).store.conversationsKey =
      some (createOp now a).session.conversations ∧
    ((updateOp msgs now a).session.conversations ≠ [] →
      (updateOp msgs now a).store.conversationsKey =
        some (updateOp msgs now a).session.conversations) ∧
    ((deleteOp cid a).session.conversations ≠ [] →
      (deleteOp cid a).store.conversationsKey =
        some (deleteOp cid a).session.conversations) ∧
    ((deleteOp cid a).session.conversations = [] →
      (deleteOp cid a).store.conversationsKey = a.store.conversationsKey) := by
  refine ⟨?_, ?_, ?_, ?_⟩
  · simp only [createOp]
    rw [runSaveEffects_conversationsKey,
      if_pos (by simp [createNewConversation])]
  · intro h
    simp only [updateOp] at h ⊢
    rw [runSaveEffects_conversationsKey, if_pos (List.length_pos.2 h)]
  · intro h
    simp only [deleteOp] at h ⊢
    rw [runSaveEffects_conversationsKey, if_pos (List.length_pos.2 h)]
  · intro h
    simp only [deleteOp] at h ⊢
    rw [runSaveEffects_conversationsKey, if_neg (by simp [h])]

/-- C3 witness: the amended statement evaluated on a concrete state. -/
theorem C3_store_full_overwrite_witness :
    (updateOp [] 9 sampleApp).store.conversationsKey =
      some (updateOp [] 9 sampleApp).session.conversations :=
  (C3_store_full_overwrite_on_mutation sampleApp 9 "1" []).2.1 (by decide)

/-! ### Active-id referential integrity (C4) -/

/-- C4 counterexample: the load effect takes the stored active id
unconditionally, so a store whose active-id key names no stored
conversation loads into a state with a dangling active id. -/
theorem C4_load_counterexample :
    (loadState { conversationsKey := some [sampleConv],
                 currentIdKey := some "c2" }).currentConversationId = some "c2" ∧
    activeIdValid (loadState { conversationsKey := some [sampleConv],
                               currentIdKey := some "c2" }) = false := by
  decide

theorem activeIdValid_create (now : Nat) (s : SessionState) :
    activeIdValid (createNewConversation now s).2 = true := by
  simp [activeIdValid, createNewConversation]

theorem activeIdValid_select (cid : String) (s : SessionState)
    (h : activeIdValid s = true) :
    activeIdValid (selectConversation cid s) = true := by
  unfold selectConversation
  cases hf : s.conversations.find? (fun c => c.id == cid) with
  | none => exact h
  | some conversation =>
      have hmem := List.mem_of_find?_eq_some hf
      have hpred := List.find?_some hf
      simp only [activeIdValid, List.any_eq_true]
      exact ⟨conversation, hmem, hpred⟩

theorem activeIdValid_update (msgs : List Message) (now : Nat)
    (s : SessionState) (h : activeIdValid s = true) :
    activeIdValid (updateCurrentConversation msgs now s) = true := by
  unfold updateCurrentConversation applyUpdateCurrent
  cases hc : s.currentConversationId with
  | none => simp [activeIdValid, hc]
  | some cid =>
      simp only [activeIdValid, hc, List.any_eq_true] at h ⊢
      obtain ⟨c, hmem, hid⟩ := h
      refine ⟨if c.id == cid then updateConv msgs now c else c,
        List.mem_map_of_mem _ hmem, ?_⟩
      rw [if_pos hid]
      simpa [updateConv] using hid

theorem activeIdValid_delete (cid : String) (s : SessionState)
    (h : activeIdValid s = true) :
    activeIdValid (deleteConversation cid s) = true := by
  unfold deleteConversation
  split
  · rfl
  · rename_i hne
    cases hc : s.currentConversationId with
    | none => simp [activeIdValid, hc]
    | some a =>
        simp only [activeIdValid, hc, List.any_eq_true] at h ⊢
        obtain ⟨c, hmem, hid⟩ := h
        refine ⟨c, List.mem_filter.2 ⟨hmem, ?_⟩, hid⟩
        have hca : c.id = a := eq_of_beq hid
        have hacid : a ≠ cid := fun heq => hne (by rw [hc, heq])
        have : c.id ≠ cid := by
          rw [hca]
          exact hacid
        simpa [bne_iff_ne] using this

/-- C4 (amended): the referential-integrity invariant — an active id always
names a conversation present in the list — is preserved by every
create/select/update/delete operation; the load path, however, takes the
stored active id without validating it, so it can produce a violating
state from a store whose id key matches no stored conversation. -/
theorem C4_ops_preserve_active_id (s : SessionState)
    (h : activeIdValid s = true) (now : Nat) (cid : String)
    (msgs : List Message) :
    activeIdValid (createNewConversation now s).2 = true ∧
    activeIdValid (selectConversation cid s) = true ∧
    activeIdValid (updateCurrentConversation msgs now s) = true ∧
    activeIdValid (deleteConversation cid s) = true :=
  ⟨activeIdValid_create now s, activeIdValid_select cid s h,
    activeIdValid_update msgs now s h, activeIdValid_delete cid s h⟩

/-- C4 witness: the amended statement evaluated on a concrete valid state. -/
theorem C4_ops_preserve_active_id_witness :
    activeIdValid (selectConversation "1" sampleApp.session) = true :=
  (C4_ops_preserve_active_id sampleApp.session (by decide) 7 "1" []).2.1

/-! ### Title-derivation idempotence (C6) -/

/-- One update with a non-empty list headed by text `t` leaves the title of
a conversation unchanged, provided the title, when still the placeholder,
already equals the derived title. -/
theorem updateConv_title_stable (t : String) (c : Conversation)
    (hQ : c.title = placeholderTitle → c.title = generateConversationTitle t)
    (msgs : List Message) (_hne : msgs ≠ []) (hft : firstText msgs = t)
    (now : Nat) :
    (updateConv msgs now c).title = c.title := by
  unfold updateConv
  simp only
  split
  · rename_i h
    rw [hft]
    exact (hQ h.2).symm
  · rfl

/-- After the first update with a non-empty list headed by text `t`, the
title, when it is (still) the placeholder, equals the derived title. -/
theorem updateConv_title_establishes (t : String) (c : Conversation)
    (msgs : List Message) (hne : msgs ≠ []) (hft : firstText msgs = t)
    (now : Nat) :
    (updateConv msgs now c).title = placeholderTitle →
      (updateConv msgs now c).title = generateConversationTitle t := by
  unfold updateConv
  simp only
  split
  · intro _
    rw [hft]
  · rename_i h
    intro hp
    exfalso
    apply h
    refine ⟨?_, hp⟩
    cases msgs with
    | nil => exact absurd rfl hne
    | cons m ms => simp

/-- Folding further updates (non-empty lists, fixed head text) over a
conversation whose title already satisfies the derivation property leaves
the title unchanged. -/
theorem foldl_updateConv_title_const (t : String)
    (us : List (List Message × Nat))
    (hus : ∀ u ∈ us, u.1 ≠ [] ∧ firstText u.1 = t) (c : Conversation)
    (hQ : c.title = placeholderTitle → c.title = generateConversationTitle t) :
    (us.foldl (fun c u => updateConv u.1 u.2 c) c).title = c.title := by
  induction us generalizing c with
  | nil => rfl
  | cons u us ih =>
      have hu := hus u (List.mem_cons_self _ _)
      have hst := updateConv_title_stable t c hQ u.1 hu.1 hu.2 u.2
      rw [List.foldl_cons]
      rw [ih (fun v hv => hus v (List.mem_cons_of_mem _ hv))
        (updateConv u.1 u.2 c) ?_]
      · exact hst
      · intro hp
        rw [hst] at hp ⊢
        exact hQ hp

/-- C6: `updateConversation` is idempotent with respect to title
derivation — applying any further updates during one exchange (each with
a non-empty message list sharing the fixed first message's text) leaves
the title identical to the result of the first non-empty call. -/
theorem C6_update_title_idempotent (conv : Conversation) (t : String)
    (u₀ : List Message × Nat) (us : List (List Message × Nat))
    (h₀ : u₀.1 ≠ [] ∧ firstText u₀.1 = t)
    (hus : ∀ u ∈ us, u.1 ≠ [] ∧ firstText u.1 = t) :
    (((u₀ :: us).foldl (fun c u => updateConv u.1 u.2 c) conv)).title =
      (updateConv u₀.1 u₀.2 conv).title := by
  rw [List.foldl_cons]
  exact foldl_updateConv_title_const t us hus (updateConv u₀.1 u₀.2 conv)
    (updateConv_title_establishes t conv u₀.1 h₀.1 h₀.2 u₀.2)

/-- C6 witness: three streaming updates on a concrete conversation keep
the title of the first non-empty call. -/
theorem C6_update_title_idempotent_witness :
    ((([([{ text := "Hello", sender := Sender.user, imageUrl := none }], 1),
        ([{ text := "Hello", sender := Sender.user, imageUrl := none },
          { text := "Hi", sender := Sender.llm, imageUrl := none }], 2),
        ([{ text := "Hello", sender := Sender.user, imageUrl := none },
          { text := "Hi there", sender := Sender.llm, imageUrl := none }], 3)] :
        List (List Message × Nat)).foldl
          (fun c u => updateConv u.1 u.2 c)
          { id := "9", title := placeholderTitle, messages := [],
            createdAt := 0, updatedAt := 0 })).title =
      (updateConv [{ text := "Hello", sender := Sender.user, imageUrl := none }] 1
        { id := "9", title := placeholderTitle, messages := [],
          createdAt := 0, updatedAt := 0 }).title :=
  C6_update_title_idempotent _ "Hello" _ _ (by decide) (by decide)

/-! ### Create-then-update (C7) -/

/-- C7 counterexample: after `createConversation` and an update whose
single message has empty text (image-only send), the title is derived
anyway and becomes the empty string — the placeholder is not retained. -/
theorem C7_empty_text_counterexample :
    ((updateCurrentConversation
        [{ text := "", sender := Sender.user, imageUrl := some "img" }] 6
        (createNewConversation 5
          { conversations := [], currentConversationId := none,
            messages := [] }).2).conversations.map Conversation.title) = [""] ∧
    ("" : String) ≠ placeholderTitle := by
  decide

/-- C7 (amended): `createConversation` followed immediately by
`updateConversation(newId, [m])` yields a conversation whose messages are
`[m]` and whose title is derived from `m.text` unconditionally — the full
text at up to 30 characters, the first 30 characters plus an ellipsis
marker when longer, and the empty string (not the placeholder) when
`m.text` is empty. -/
theorem C7_create_then_update (m : Message) (now₁ now₂ : Nat)
    (s : SessionState) :
    (updateCurrentConversation [m] now₂
        (createNewConversation now₁ s).2).conversations.head? =
      some { id := toString now₁
             title := if m.text.length > 30 then m.text.take 30 ++ "..."
                      else m.text
             messages := [m]
             createdAt := now₁
             updatedAt := now₂ } := by
  simp [updateCurrentConversation, createNewConversation, applyUpdateCurrent,
    updateConv, generateConversationTitle, firstText, placeholderTitle]

/-! ### Conversation-id allocation (C8)

The source allocates ids with `Date.now().toString()`, modelled by
`toString now` on the millisecond timestamp.  Two calls within the same
millisecond therefore receive the same id; distinct timestamps receive
distinct ids because the decimal representation of a natural number is
injective, which we prove below. -/

/-- Decimal digit characters of a natural number, most significant
first — a structural restatement of `Nat.toDigitsCore` at base 10. -/
def natDigits (n : Nat) : List Char :=
  if n < 10 then [Nat.digitChar n]
  else natDigits (n / 10) ++ [Nat.digitChar (n % 10)]
decreasing_by
  exact Nat.div_lt_self (by omega) (by omega)

theorem natDigits_lt (n : Nat) (h : n < 10) :
    natDigits n = [Nat.digitChar n] := by
  rw [natDigits, if_pos h]

theorem natDigits_ge (n : Nat) (h : ¬ n < 10) :
    natDigits n = natDigits (n / 10) ++ [Nat.digitChar (n % 10)] := by
  rw [natDigits, if_neg h]

theorem natDigits_ne_nil (n : Nat) : natDigits n ≠ [] := by
  by_cases h : n < 10
  · rw [natDigits_lt n h]
    simp
  · rw [natDigits_ge n h]
    simp

theorem toDigitsCore_eq_natDigits (fuel n : Nat) (ds : List Char)
    (h : n < fuel) :
    Nat.toDigitsCore 10 fuel n ds = natDigits n ++ ds := by
  induction fuel generalizing n ds with
  | zero => omega
  | succ fuel ih =>
      rw [Nat.toDigitsCore]
      split
      · rename_i hz
        have h10 : n < 10 := by omega
        have hmod : n % 10 = n := Nat.mod_eq_of_lt h10
        rw [natDigits_lt n h10, hmod]
        rfl
      · rename_i hz
        have hpos : 0 < n := by
          rcases Nat.eq_zero_or_pos n with h0 | h0
          · exfalso
            exact hz (by simp [h0])
          · exact h0
        have hlt : n / 10 < fuel :=
          Nat.lt_of_lt_of_le (Nat.div_lt_self hpos (by omega)) (by omega)
        rw [ih (n / 10) _ hlt]
        have h10 : ¬ n < 10 := by
          intro hc
          exact hz (Nat.div_eq_of_lt hc)
        rw [natDigits_ge n h10]
        simp

theorem natRepr_eq_natDigits (n : Nat) :
    Nat.repr n = (natDigits n).asString := by
  rw [Nat.repr, Nat.toDigits,
    toDigitsCore_eq_natDigits (n + 1) n [] (Nat.lt_succ_self n)]
  simp

theorem digitChar_inj_lt (a b : Nat) (ha : a < 10) (hb : b < 10)
    (h : Nat.digitChar a = Nat.digitChar b) : a = b := by
  have : ∀ x : Fin 10, ∀ y : Fin 10,
      Nat.digitChar x.val = Nat.digitChar y.val → x = y := by decide
  have := this ⟨a, ha⟩ ⟨b, hb⟩ h
  exact congrArg Fin.val this

theorem natDigits_inj (m : Nat) :
    ∀ n, natDigits m = natDigits n → m = n := by
  induction m using Nat.strong_induction_on with
  | _ m ih =>
      intro n h
      by_cases hm : m < 10 <;> by_cases hn : n < 10
      · rw [natDigits_lt m hm, natDigits_lt n hn] at h
        exact digitChar_inj_lt m n hm hn (List.singleton_injective h)
      · rw [natDigits_lt m hm, natDigits_ge n hn] at h
        exfalso
        have hlen := congrArg List.length h
        rw [List.length_append, List.length_singleton, List.length_singleton]
          at hlen
        exact natDigits_ne_nil (n / 10) (List.length_eq_zero.1 (by omega))
      · rw [natDigits_ge m hm, natDigits_lt n hn] at h
        exfalso
        have hlen := congrArg List.length h
        rw [List.length_append, List.length_singleton, List.length_singleton]
          at hlen
        exact natDigits_ne_nil (m / 10) (List.length_eq_zero.1 (by omega))
      · rw [natDigits_ge m hm, natDigits_ge n hn] at h
        have := List.append_inj' h (by simp)
        have hdiv : m / 10 = n / 10 := ih (m / 10)
          (Nat.div_lt_self (by omega) (by omega)) (n / 10) this.1
        have hmod : m % 10 = n % 10 :=
          digitChar_inj_lt _ _ (Nat.mod_lt _ (by omega)) (Nat.mod_lt _ (by omega))
            (List.singleton_injective this.2)
        omega

/-- Injectivity of the decimal string representation of naturals, hence of
the id allocator's `Date.now().toString()` at distinct timestamps. -/
theorem natToString_inj (m n : Nat) (h : (toString m : String) = toString n) :
    m = n := by
  have hr : Nat.repr m = Nat.repr n := h
  rw [natRepr_eq_natDigits, natRepr_eq_natDigits] at hr
  have : natDigits m = natDigits n := congrArg String.data hr
  exact natDigits_inj m n this

/-- C8 counterexample: two creations in the same millisecond (same
`Date.now()` value) return the same id, so the session ends with two
conversations carrying equal ids — ids are not unique for every pair of
calls. -/
theorem C8_same_millisecond_counterexample :
    (createNewConversation 1000
        (createNewConversation 1000
          { conversations := [], currentConversationId := none,
            messages := [] }).2).1 =
      (createNewConversation 1000
        { conversations := [], currentConversationId := none,
          messages := [] }).1 ∧
    ((createNewConversation 1000
        (createNewConversation 1000
          { conversations := [], currentConversationId := none,
            messages := [] }).2).2.conversations.map Conversation.id) =
      ["1000", "1000"] := by
  constructor
  · rfl
  · rfl

/-- C8 (amended): `createConversation` allocates the decimal string of the
creation timestamp as id — so ids of calls at distinct timestamps are
distinct (uniqueness within a session holds only when no two creations
share a millisecond) — prepends the new conversation, makes it active,
resets the visible message list, and returns the new id. -/
theorem C8_create_allocates (s : SessionState) (now t₁ t₂ : Nat)
    (hne : t₁ ≠ t₂) :
    (createNewConversation now s).1 = toString now ∧
    (createNewConversation now s).2.conversations =
      { id := toString now, title := placeholderTitle, messages := [],
        createdAt := now, updatedAt := now } :: s.conversations ∧
    (createNewConversation now s).2.currentConversationId =
      some (toString now) ∧
    (createNewConversation now s).2.messages = [] ∧
    (toString t₁ : String) ≠ toString t₂ := by
  refine ⟨rfl, rfl, rfl, rfl, ?_⟩
  intro h
  exact hne (natToString_inj t₁ t₂ h)

/-- C8 witness: the amended statement evaluated at concrete timestamps. -/
theorem C8_create_allocates_witness :
    (createNewConversation 1700000000000
        { conversations := [], currentConversationId := none,
          messages := [] }).2.messages = [] ∧
    (toString (1700000000000 : Nat) : String) ≠ toString (1700000000001 : Nat) :=
  ⟨(C8_create_allocates
      { conversations := [], currentConversationId := none, messages := [] }
      1700000000000 1700000000000 1700000000001 (by decide)).2.2.2.1,
    (C8_create_allocates
      { conversations := [], currentConversationId := none, messages := [] }
      1700000000000 1700000000000 1700000000001 (by decide)).2.2.2.2⟩

/-! ### Stream decoder (App.tsx lines 264-312)

Chunks and lines are modelled as `List Char` (the character sequence of
the decoded JS string).  `TextDecoder.decode(value, ... stream ... true)`
buffers incomplete multi-byte sequences, so each decoded chunk is a
character sequence; the line framing, however, is applied per chunk with
`chunk.split("\n")` and no line buffer is carried across chunks. -/

/-- The `"data: "` line marker tested by `line.startsWith("data: ")`. -/
def dataMarker : List Char := "data: ".toList

/-- The `[DONE]` termination sentinel payload. -/
def doneMarker : List Char := "[DONE]".toList

/-- Model of `chunk.split("\n")`: split a character sequence at every newline,
keeping empty segments (so a trailing newline yields a trailing empty
segment, exactly as the JS `String.split`). -/
def splitNL : List Char → List (List Char)
  | [] => [[]]
  | c :: rest =>
    if c = '\n' then [] :: splitNL rest
    else
      match splitNL rest with
      | [] => [[c]]
      | l :: ls => (c :: l) :: ls

/-! A small JSON reader modelling the host `JSON.parse` on the frame
payloads (an external collaborator of the source).  It covers the value
grammar the frames use — objects, arrays, strings with the common
single-character escapes, integers, booleans, null — and fails (returns
`none`) on anything else, which the caller treats as a malformed frame. -/

/-- JSON values. -/
inductive Json where
  | str (s : List Char)
  | num (n : Int)
  | boolean (b : Bool)
  | null
  | arr (xs : List Json)
  | obj (fields : List (List Char × Json))

/-- JSON whitespace. -/
def isWs (c : Char) : Bool :=
  c == ' ' || c == '\t' || c == '\n' || c == '\r'

/-- Body of a JSON string after the opening quote: returns the decoded
characters and the rest of the input after the closing quote. -/
def parseStringBody : List Char → Option (List Char × List Char)
  | [] => none
  | c :: rest =>
    if c = '"' then some ([], rest)
    else if c = '\\' then
      match rest with
      | [] => none
      | e :: rest2 =>
          let dec : Option Char :=
            if e = '"' then some '"'
            else if e = '\\' then some '\\'
            else if e = '/' then some '/'
            else if e = 'n' then some '\n'
            else if e = 't' then some '\t'
            else if e = 'r' then some '\r'
            else none
          match dec with
          | some d =>
              match parseStringBody rest2 with
              | some (s, r) => some (d :: s, r)
              | none => none
          | none => none
    else
      match parseStringBody rest with
      | some (s, r) => some (c :: s, r)
      | none => none

/-- Decimal digits to a natural number. -/
def digitsToNat (ds : List Char) : Nat :=
  ds.foldl (fun acc c => acc * 10 + (c.toNat - 48)) 0

/-- An integer literal (optional minus, digits). -/
def parseNumber (cs : List Char) : Option (Json × List Char) :=
  match cs with
  | '-' :: rest =>
      let ds := rest.takeWhile Char.isDigit
      if ds = [] then none
      else some (Json.num (-(digitsToNat ds : Int)), rest.dropWhile Char.isDigit)
  | _ =>
      let ds := cs.takeWhile Char.isDigit
      if ds = [] then none
      else some (Json.num (digitsToNat ds : Int), cs.dropWhile Char.isDigit)

mutual

/-- A JSON value, fuel-bounded. -/
def parseValue : Nat → List Char → Option (Json × List Char)
  | 0, _ => none
  | fuel + 1, cs =>
    match cs.dropWhile isWs with
    | [] => none
    | c :: rest =>
      if c = '"' then
        match parseStringBody rest with
        | some (s, r) => some (Json.str s, r)
        | none => none
      else if c = '\x7b' then
        match rest.dropWhile isWs with
        | '\x7d' :: r2 => some (Json.obj [], r2)
        | _ =>
          match parseMembers fuel rest with
          | some (fields, r2) => some (Json.obj fields, r2)
          | none => none
      else if c = '[' then
        match rest.dropWhile isWs with
        | ']' :: r2 => some (Json.arr [], r2)
        | _ =>
          match parseElems fuel rest with
          | some (xs, r2) => some (Json.arr xs, r2)
          | none => none
      else if c = 't' then
        if "rue".toList.isPrefixOf rest then some (Json.boolean true, rest.drop 3)
        else none
      else if c = 'f' then
        if "alse".toList.isPrefixOf rest then some (Json.boolean false, rest.drop 4)
        else none
      else if c = 'n' then
        if "ull".toList.isPrefixOf rest then some (Json.null, rest.drop 3)
        else none
      else parseNumber (c :: rest)

/-- The members of a JSON object after the opening brace (at least one). -/
def parseMembers : Nat → List Char → Option (List (List Char × Json) × List Char)
  | 0, _ => none
  | fuel + 1, cs =>
    match cs.dropWhile isWs with
    | '"' :: rest =>
      match parseStringBody rest with
      | some (key, r1) =>
        match r1.dropWhile isWs with
        | ':' :: r2 =>
          match parseValue fuel r2 with
          | some (v, r3) =>
            match r3.dropWhile isWs with
            | ',' :: r4 =>
                match parseMembers fuel r4 with
                | some (fields, r5) => some ((key, v) :: fields, r5)
                | none => none
            | '\x7d' :: r4 => some ([(key, v)], r4)
            | _ => none
          | none => none
        | _ => none
      | none => none
    | _ => none

/-- The elements of a JSON array after the opening bracket (at least one). -/
def parseElems : Nat → List Char → Option (List Json × List Char)
  | 0, _ => none
  | fuel + 1, cs =>
    match parseValue fuel cs with
    | some (v, r1) =>
      match r1.dropWhile isWs with
      | ',' :: r2 =>
          match parseElems fuel r2 with
          | some (xs, r3) => some (v :: xs, r3)
          | none => none
      | ']' :: r2 => some ([v], r2)
      | _ => none
    | none => none

end

/-- Model of `JSON.parse` on a frame payload: a single value followed only by
whitespace; anything else raises (models as `none`). -/
def jsonParse (cs : List Char) : Option Json :=
  match parseValue (cs.length + 1) cs with
  | some (v, rest) => if rest.dropWhile isWs = [] then some v else none
  | none => none

/-- Property access on an object; `none` on any other value. -/
def objGet (j : Json) (key : List Char) : Option Json :=
  match j with
  | Json.obj fields =>
      match fields.find? (fun f => f.1 == key) with
      | some f => some f.2
      | none => none
  | _ => none

/-- Indexing `xs?.[0]`: the first element of an array. -/
def arrHead : Json → Option Json
  | Json.arr (x :: _) => some x
  | _ => none

/-- Model of `JSON.parse(data)` followed by `parsed.choices?.[0]?.delta?.content`
(App.tsx lines 301-302), keeping the value only when it is a string. -/
def extractDelta (data : List Char) : Option (List Char) :=
  match jsonParse data with
  | some v =>
    match objGet v "choices".toList with
    | some choices =>
      match arrHead choices with
      | some c0 =>
        match objGet c0 "delta".toList with
        | some delta =>
          match objGet delta "content".toList with
          | some (Json.str s) => some s
          | _ => none
        | none => none
      | none => none
    | none => none
  | none => none

/-- The decoder's running state: `accumulatedText` and the sequence of
cumulative snapshots passed to `processChunk` so far. -/
structure DecodeState where
  acc : List Char
  snaps : List (List Char)
  deriving DecidableEq

/-- What the loop body does with a single line. -/
inductive LineAction where
  | stop
  | emit (delta : List Char)
  | skip
  deriving DecidableEq

/-- The branch structure of the loop body (App.tsx lines 293-309) for one
line: lines without the `"data: "` marker are ignored; the `[DONE]`
payload breaks the per-chunk loop; a parsed delta that passes the
`if (delta)` truthiness test (a non-empty string) is emitted; everything
else — unparsable payloads, missing or empty deltas — is skipped. -/
def lineAction (line : List Char) : LineAction :=
  if dataMarker.isPrefixOf line then
    if line.drop 6 = doneMarker then LineAction.stop
    else
      match extractDelta (line.drop 6) with
      | some delta =>
          if delta = [] then LineAction.skip else LineAction.emit delta
      | none => LineAction.skip
  else LineAction.skip

/-- The `for` loop over one chunk's lines (App.tsx lines 292-311): on an
emitted delta the running total grows and is emitted as a cumulative
snapshot (the `processChunk(accumulatedText)` call); `[DONE]` breaks out
of this per-chunk loop (second component `true`). -/
def processLines (st : DecodeState) : List (List Char) → DecodeState × Bool
  | [] => (st, false)
  | line :: rest =>
    match lineAction line with
    | LineAction.stop => (st, true)
    | LineAction.emit delta =>
        processLines
          { acc := st.acc ++ delta, snaps := st.snaps ++ [st.acc ++ delta] }
          rest
    | LineAction.skip => processLines st rest

/-- The deltas a sequence of complete lines contributes, in order, up to
the first `[DONE]` line. -/
def lineDeltas : List (List Char) → List (List Char)
  | [] => []
  | line :: rest =>
    match lineAction line with
    | LineAction.stop => []
    | LineAction.emit delta => delta :: lineDeltas rest
    | LineAction.skip => lineDeltas rest

/-- Cumulative running totals: the snapshots yielded for a delta
sequence, starting from accumulated text `acc`. -/
def runningTotals (acc : List Char) : List (List Char) → List (List Char)
  | [] => []
  | d :: ds => (acc ++ d) :: runningTotals (acc ++ d) ds

/-- The `while` read loop (App.tsx lines 285-312): each network chunk is
split on newlines independently — no line buffer is carried from one
chunk to the next.  A `[DONE]` sentinel only breaks the current chunk's
line loop; remaining chunks are still read and processed. -/
def processStream (st : DecodeState) : List (List Char) → DecodeState
  | [] => st
  | chunk :: chunks => processStream (processLines st (splitNL chunk)).1 chunks

/-! ### Chunk-splitting lemmas (C9) -/

theorem splitNL_ne_nil (cs : List Char) : splitNL cs ≠ [] := by
  cases cs with
  | nil => simp [splitNL]
  | cons c rest =>
      simp only [splitNL]
      split
      · simp
      · split <;> simp

theorem getLast?_getD_irrel {α : Type} (a : α) (l : List α) (d₁ d₂ : α) :
    ((a :: l).getLast?).getD d₁ = ((a :: l).getLast?).getD d₂ := by
  obtain ⟨z, hz⟩ := Option.isSome_iff_exists.1
    (List.getLast?_isSome.2 (List.cons_ne_nil a l))
  rw [hz]
  rfl

theorem splitNL_cons_newline (z : List Char) :
    splitNL ('\n' :: z) = [] :: splitNL z := by
  simp [splitNL]

theorem splitNL_cons_other (c : Char) (hc : c ≠ '\n') (z : List Char)
    (l : List Char) (ls : List (List Char)) (hz : splitNL z = l :: ls) :
    splitNL (c :: z) = (c :: l) :: ls := by
  simp only [splitNL, if_neg hc, hz]

/-- How `split("\n")` interacts with concatenation: the last segment of
`x` is glued onto the first segment of `y`. -/
theorem splitNL_append (x y : List Char) :
    splitNL (x ++ y) =
      (splitNL x).dropLast ++
        ((splitNL x).getLastD [] ++ (splitNL y).headD []) :: (splitNL y).tail := by
  induction x with
  | nil =>
      cases hy : splitNL y with
      | nil => exact absurd hy (splitNL_ne_nil y)
      | cons hh t => simp [splitNL, hy]
  | cons c x' ih =>
      obtain ⟨hh, t, hx'⟩ : ∃ hh t, splitNL x' = hh :: t := by
        cases hx : splitNL x' with
        | nil => exact absurd hx (splitNL_ne_nil x')
        | cons a b => exact ⟨a, b, rfl⟩
      by_cases hc : c = '\n'
      · subst hc
        rw [List.cons_append, splitNL_cons_newline, ih, splitNL_cons_newline,
          hx', List.dropLast_cons_of_ne_nil (List.cons_ne_nil hh t),
          List.getLastD_cons]
        cases t with
        | nil => simp
        | cons t0 ts =>
            simp [List.getLastD_cons]
            exact getLast?_getD_irrel t0 ts hh []
      · rw [List.cons_append]
        cases t with
        | nil =>
            have ih' : splitNL (x' ++ y) =
                (hh ++ (splitNL y).headD []) :: (splitNL y).tail := by
              rw [ih, hx']
              simp
            rw [splitNL_cons_other c hc _ _ _ ih',
              splitNL_cons_other c hc _ _ _ hx']
            simp
        | cons t0 ts =>
            have ih' : splitNL (x' ++ y) =
                hh :: ((t0 :: ts).dropLast ++
                  ((t0 :: ts).getLastD hh ++ (splitNL y).headD []) ::
                    (splitNL y).tail) := by
              rw [ih, hx', List.dropLast_cons_of_ne_nil (List.cons_ne_nil t0 ts),
                List.getLastD_cons, List.cons_append]
            rw [splitNL_cons_other c hc _ _ _ ih',
              splitNL_cons_other c hc _ _ _ hx',
              List.dropLast_cons_of_ne_nil (List.cons_ne_nil t0 ts)]
            simp [List.getLastD_cons]
            exact getLast?_getD_irrel t0 ts hh []

/-- A chunk ending in a newline splits into segments whose last segment
is empty, and there are at least two segments. -/
theorem splitNL_getLast_of_newline (x : List Char)
    (h : x.getLast? = some '\n') :
    (splitNL x).getLast? = some [] ∧ 2 ≤ (splitNL x).length := by
  induction x with
  | nil => simp at h
  | cons c x' ih =>
      cases x' with
      | nil =>
          have hc : c = '\n' := by
            simpa using h
          subst hc
          exact ⟨rfl, by rfl⟩
      | cons d xs =>
          rw [List.getLast?_cons_cons] at h
          obtain ⟨ihl, ihn⟩ := ih h
          obtain ⟨hh, t, hx⟩ : ∃ hh t, splitNL (d :: xs) = hh :: t := by
            cases hx : splitNL (d :: xs) with
            | nil => exact absurd hx (splitNL_ne_nil _)
            | cons a b => exact ⟨a, b, rfl⟩
          rw [hx] at ihl ihn
          by_cases hc : c = '\n'
          · subst hc
            rw [splitNL_cons_newline, hx]
            refine ⟨?_, ?_⟩
            · rw [List.getLast?_cons_cons]
              exact ihl
            · simp only [List.length_cons]
              omega
          · cases t with
            | nil => simp at ihn
            | cons t0 ts =>
                rw [splitNL_cons_other c hc _ _ _ hx]
                rw [List.getLast?_cons_cons] at ihl
                refine ⟨?_, ?_⟩
                · rw [List.getLast?_cons_cons]
                  exact ihl
                · simp only [List.length_cons] at ihn ⊢
                  omega

/-- For a chunk ending in a newline, splitting the concatenation is
splitting the chunk (latest, empty segment dropped) followed by
splitting the rest. -/
theorem splitNL_append_of_newline (x y : List Char)
    (h : x.getLast? = some '\n') :
    splitNL (x ++ y) = (splitNL x).dropLast ++ splitNL y := by
  rw [splitNL_append]
  have hl := (splitNL_getLast_of_newline x h).1
  rw [List.getLastD_eq_getLast?, hl]
  cases hy : splitNL y with
  | nil => exact absurd hy (splitNL_ne_nil y)
  | cons hh t => simp

theorem processLines_append (l1 l2 : List (List Char)) (st : DecodeState)
    (h : (processLines st l1).2 = false) :
    processLines st (l1 ++ l2) = processLines (processLines st l1).1 l2 := by
  induction l1 generalizing st with
  | nil => rfl
  | cons line rest ih =>
      rw [List.cons_append]
      simp only [processLines] at h ⊢
      cases ha : lineAction line with
      | stop =>
          rw [ha] at h
          exact Bool.noConfusion h
      | emit delta =>
          rw [ha] at h
          exact ih _ h
      | skip =>
          rw [ha] at h
          exact ih _ h

/-- The loop body stops exactly on the literal `"data: [DONE]"` line. -/
theorem lineAction_stop_iff (line : List Char) :
    lineAction line = LineAction.stop ↔ line = dataMarker ++ doneMarker := by
  constructor
  · intro h
    unfold lineAction at h
    by_cases hp : dataMarker.isPrefixOf line
    · rw [if_pos hp] at h
      by_cases hd : line.drop 6 = doneMarker
      · obtain ⟨t, ht⟩ := List.isPrefixOf_iff_prefix.1 hp
        have hdrop : line.drop 6 = t := by
          rw [← ht]
          exact List.drop_left' (by decide)
        rw [hdrop] at hd
        rw [← ht, hd]
      · rw [if_neg hd] at h
        cases he : extractDelta (line.drop 6) with
        | some delta =>
            rw [he] at h
            by_cases hnil : delta = [] <;> simp [hnil] at h
        | none =>
            rw [he] at h
            simp at h
    · rw [if_neg hp] at h
      simp at h
  · intro h
    subst h
    decide

theorem processLines_no_stop (lines : List (List Char)) (st : DecodeState)
    (h : (dataMarker ++ doneMarker) ∉ lines) :
    (processLines st lines).2 = false := by
  induction lines generalizing st with
  | nil => rfl
  | cons line rest ih =>
      simp only [processLines]
      cases ha : lineAction line with
      | stop =>
          exact absurd (by rw [← (lineAction_stop_iff line).1 ha]
                           exact List.mem_cons_self _ _) h
      | emit delta =>
          exact ih _ (fun hm => h (List.mem_cons_of_mem _ hm))
      | skip =>
          exact ih _ (fun hm => h (List.mem_cons_of_mem _ hm))

theorem processStream_single (st : DecodeState) (x : List Char) :
    processStream st [x] = (processLines st (splitNL x)).1 := rfl

/-- Processing the lines of a chunk and processing them with the trailing
empty segment removed reach the same state, provided no line stops the
loop. -/
theorem processLines_fst_trailing_empty (ls : List (List Char))
    (st : DecodeState) (h : ∀ st', (processLines st' ls).2 = false) :
    (processLines st (ls ++ [[]])).1 = (processLines st ls).1 := by
  rw [processLines_append _ _ _ (h st)]
  rfl

/-- Chunk-boundary invariance: when every chunk before the last ends with
a newline (so no frame is split across a boundary) and the `[DONE]` line
occurs at most in the last chunk, per-chunk processing reaches the same
decoder state as processing the whole stream as one chunk. -/
theorem processStream_join (chunks : List (List Char)) (st : DecodeState)
    (hnl : ∀ ch ∈ chunks.dropLast, ch.getLast? = some '\n')
    (hdone : ∀ ch ∈ chunks.dropLast, (dataMarker ++ doneMarker) ∉ splitNL ch) :
    processStream st chunks = processStream st [chunks.flatten] := by
  induction chunks generalizing st with
  | nil => rfl
  | cons ch chs ih =>
      cases chs with
      | nil =>
          show processStream st [ch] = processStream st [ch ++ [].flatten]
          rw [List.flatten_nil, List.append_nil]
      | cons ch2 chs2 =>
          have hmem : ch ∈ (ch :: ch2 :: chs2).dropLast := by
            rw [List.dropLast_cons_of_ne_nil (List.cons_ne_nil ch2 chs2)]
            exact List.mem_cons_self _ _
          have hnl1 := hnl ch hmem
          have hdone1 := hdone ch hmem
          have hnostopdrop : ∀ st',
              (processLines st' (splitNL ch).dropLast).2 = false := fun st' =>
            processLines_no_stop _ _
              (fun hm => hdone1 (List.dropLast_subset _ hm))
          have hfst : (processLines st (splitNL ch)).1 =
              (processLines st (splitNL ch).dropLast).1 := by
            conv_lhs =>
              rw [← List.dropLast_append_getLast? []
                (splitNL_getLast_of_newline ch hnl1).1]
            exact processLines_fst_trailing_empty _ _ hnostopdrop
          have hmemtail : ∀ c ∈ (ch2 :: chs2).dropLast,
              c ∈ (ch :: ch2 :: chs2).dropLast := by
            intro c hc
            rw [List.dropLast_cons_of_ne_nil (List.cons_ne_nil ch2 chs2)]
            exact List.mem_cons_of_mem _ hc
          show processStream (processLines st (splitNL ch)).1 (ch2 :: chs2) = _
          rw [processStream_single, List.flatten_cons,
            splitNL_append_of_newline ch _ hnl1,
            processLines_append _ _ _ (hnostopdrop st), ← hfst,
            ← processStream_single]
          exact ih _ (fun c hc => hnl c (hmemtail c hc))
            (fun c hc => hdone c (hmemtail c hc))

/-! ### C9 theorems -/

/-- First streamed frame of the reference scenario, newline-terminated. -/
def helloFrame1 : List Char :=
  "data: \x7b\"choices\":[\x7b\"delta\":\x7b\"content\":\"Hi\"\x7d\x7d]\x7d\n".toList

/-- First half of the second frame, as cut by a network chunk boundary. -/
def frame2a : List Char :=
  "data: \x7b\"choices\":[\x7b\"delta\":\x7b\"cont".toList

/-- Remainder of the second frame plus the termination sentinel line. -/
def frame2b : List Char :=
  "ent\":\" there\"\x7d\x7d]\x7d\ndata: [DONE]\n".toList

/-- The sentinel line as one newline-terminated chunk. -/
def doneChunk : List Char := "data: [DONE]\n".toList

/-- C9 counterexample: a frame split across two network chunks is not
reassembled — the decoder accumulates `"Hi"` instead of the `"Hi there"`
obtained when the same bytes arrive as one chunk, so parsing is not
invariant under chunk splitting. -/
theorem C9_split_frame_counterexample :
    (processStream ⟨[], []⟩ [helloFrame1 ++ frame2a, frame2b]).acc =
      "Hi".toList ∧
    (processStream ⟨[], []⟩ [helloFrame1 ++ frame2a ++ frame2b]).acc =
      "Hi there".toList ∧
    (processStream ⟨[], []⟩ [helloFrame1 ++ frame2a, frame2b]).acc ≠
      (processStream ⟨[], []⟩ [helloFrame1 ++ frame2a ++ frame2b]).acc := by
  refine ⟨by decide, by decide, by decide⟩

/-- C9 (amended): the decoder splits each chunk on newlines with no line
buffer carried across chunks; chunk-split invariance therefore holds
exactly when chunk boundaries fall on line breaks — every chunk before
the last ends with a newline and the sentinel occurs at most in the last
chunk — while a frame split across a boundary is not reassembled.
Malformed `"data: "` frames are skipped without aborting the stream. -/
theorem C9_per_chunk_line_framing :
    (∀ (chunks : List (List Char)) (st : DecodeState),
      (∀ ch ∈ chunks.dropLast, ch.getLast? = some '\n') →
      (∀ ch ∈ chunks.dropLast, (dataMarker ++ doneMarker) ∉ splitNL ch) →
      processStream st chunks = processStream st [chunks.flatten]) ∧
    (∀ (st : DecodeState) (line : List Char) (rest : List (List Char)),
      dataMarker.isPrefixOf line = true → line.drop 6 ≠ doneMarker →
      extractDelta (line.drop 6) = none →
      processLines st (line :: rest) = processLines st rest) := by
  constructor
  · exact fun chunks st hnl hdone => processStream_join chunks st hnl hdone
  · intro st line rest hp hd he
    simp only [processLines, lineAction, if_pos hp, if_neg hd, he]

/-- C9 witness: the amended invariance applied to a concrete two-chunk
delivery whose boundary falls on a line break. -/
theorem C9_per_chunk_line_framing_witness :
    processStream ⟨[], []⟩ [helloFrame1, doneChunk] =
      processStream ⟨[], []⟩ [[helloFrame1, doneChunk].flatten] :=
  C9_per_chunk_line_framing.1 [helloFrame1, doneChunk] ⟨[], []⟩
    (by decide) (by decide)

/-! ### Cumulative snapshots (C2) -/

theorem processLines_acc_snaps (lines : List (List Char)) (st : DecodeState) :
    (processLines st lines).1.acc = st.acc ++ (lineDeltas lines).flatten ∧
    (processLines st lines).1.snaps =
      st.snaps ++ runningTotals st.acc (lineDeltas lines) := by
  induction lines generalizing st with
  | nil => simp [processLines, lineDeltas, runningTotals]
  | cons line rest ih =>
      simp only [processLines, lineDeltas]
      cases ha : lineAction line with
      | stop => simp [runningTotals]
      | emit delta =>
          obtain ⟨ha1, ha2⟩ :=
            ih { acc := st.acc ++ delta, snaps := st.snaps ++ [st.acc ++ delta] }
          constructor
          · rw [ha1]
            simp [List.append_assoc]
          · rw [ha2]
            simp [runningTotals, List.append_assoc]
      | skip => exact ih st

theorem runningTotals_length (ds : List (List Char)) (acc : List Char) :
    (runningTotals acc ds).length = ds.length := by
  induction ds generalizing acc with
  | nil => rfl
  | cons d ds ih => simp [runningTotals, ih]

/-- Every snapshot is the running total of the deltas received so far. -/
theorem runningTotals_get (ds : List (List Char)) (acc : List Char) (i : Nat)
    (h : i < (runningTotals acc ds).length) :
    (runningTotals acc ds).get ⟨i, h⟩ = acc ++ (ds.take (i + 1)).flatten := by
  induction ds generalizing acc i with
  | nil => simp [runningTotals] at h
  | cons d ds ih =>
      cases i with
      | zero => simp [runningTotals]
      | succ i =>
          have h2 : i < (runningTotals (acc ++ d) ds).length := by
            simp only [runningTotals, List.length_cons] at h
            omega
          have : (runningTotals acc (d :: ds)).get
              ⟨i + 1, h⟩ = (runningTotals (acc ++ d) ds).get ⟨i, h2⟩ := rfl
          rw [this, ih]
          simp [List.append_assoc]

theorem runningTotals_getLast? (ds : List (List Char)) (acc : List Char)
    (h : ds ≠ []) :
    (runningTotals acc ds).getLast? = some (acc ++ ds.flatten) := by
  induction ds generalizing acc with
  | nil => exact absurd rfl h
  | cons d ds ih =>
      cases ds with
      | nil => simp [runningTotals]
      | cons d2 ds2 =>
          have h1 : runningTotals acc (d :: d2 :: ds2) =
              (acc ++ d) :: runningTotals (acc ++ d) (d2 :: ds2) := rfl
          obtain ⟨y, ys, hys⟩ : ∃ y ys,
              runningTotals (acc ++ d) (d2 :: ds2) = y :: ys := ⟨_, _, rfl⟩
          rw [h1, hys, List.getLast?_cons_cons, ← hys,
            ih (acc ++ d) (List.cons_ne_nil d2 ds2)]
          simp [List.append_assoc]

/-- Source `processChunk` (App.tsx lines 270-283): replace the text of the last
message with the received cumulative snapshot; a no-op on an empty list
(the `length > 0` guard); never appends. -/
def replaceLastText (text : String) : List Message → List Message
  | [] => []
  | [m] => [{ m with text := text }]
  | m :: m2 :: rest => m :: replaceLastText text (m2 :: rest)

theorem replaceLastText_length (t : String) (msgs : List Message) :
    (replaceLastText t msgs).length = msgs.length := by
  induction msgs with
  | nil => rfl
  | cons m rest ih =>
      cases rest with
      | nil => rfl
      | cons m2 rest2 =>
          simp only [replaceLastText, List.length_cons]
          rw [ih]
          simp

/-- Replacing the last text twice keeps only the last replacement — the
full-replace is idempotent under re-delivery of snapshots. -/
theorem replaceLastText_replaceLastText (msgs : List Message) (t t' : String) :
    replaceLastText t' (replaceLastText t msgs) = replaceLastText t' msgs := by
  induction msgs with
  | nil => rfl
  | cons m rest ih =>
      cases rest with
      | nil => rfl
      | cons m2 rest2 =>
          obtain ⟨y, ys, hys⟩ : ∃ y ys,
              replaceLastText t (m2 :: rest2) = y :: ys := by
            cases h : replaceLastText t (m2 :: rest2) with
            | nil =>
                have := replaceLastText_length t (m2 :: rest2)
                rw [h] at this
                simp at this
            | cons a b => exact ⟨a, b, rfl⟩
          show replaceLastText t' (m :: replaceLastText t (m2 :: rest2)) =
            m :: replaceLastText t' (m2 :: rest2)
          rw [hys]
          show m :: replaceLastText t' (y :: ys) =
            m :: replaceLastText t' (m2 :: rest2)
          rw [← hys, ih]

/-- Folding the yielded snapshots into the message list, as the
controller does with each `processChunk` call. -/
def applySnapshots (snaps : List (List Char)) (msgs : List Message) :
    List Message :=
  snaps.foldl (fun ms cs => replaceLastText (String.mk cs) ms) msgs

theorem applySnapshots_length (snaps : List (List Char)) (msgs : List Message) :
    (applySnapshots snaps msgs).length = msgs.length := by
  induction snaps generalizing msgs with
  | nil => rfl
  | cons s rest ih =>
      show (applySnapshots rest (replaceLastText (String.mk s) msgs)).length = _
      rw [ih, replaceLastText_length]

theorem foldl_replaceLast (ts : List (List Char)) (t : List Char)
    (msgs : List Message) :
    ts.foldl (fun ms cs => replaceLastText (String.mk cs) ms)
        (replaceLastText (String.mk t) msgs) =
      replaceLastText (String.mk (ts.getLastD t)) msgs := by
  induction ts generalizing t msgs with
  | nil => rfl
  | cons u ts ih =>
      rw [List.foldl_cons, replaceLastText_replaceLastText, ih,
        List.getLastD_cons]

theorem getLastD_of_getLast? {α : Type} (x z : α) (xs : List α)
    (h : ((x :: xs).getLast?) = some z) : xs.getLastD x = z := by
  cases xs with
  | nil => simpa using h
  | cons y ys =>
      rw [List.getLast?_cons_cons] at h
      rw [List.getLastD_eq_getLast?, h]
      rfl

/-- C2: the snapshots yielded during one streaming exchange are exactly
the running totals of the deltas received so far; the consumer writes each
one by replacing the last message's text (never appending, so the count
is unchanged and at most the one appended placeholder exists); the final
text of the last message equals the last yielded snapshot. -/
theorem C2_cumulative_snapshots (lines : List (List Char))
    (msgs : List Message) :
    (processLines ⟨[], []⟩ lines).1.snaps =
      runningTotals [] (lineDeltas lines) ∧
    (∀ i, ∀ h : i < (runningTotals [] (lineDeltas lines)).length,
      (runningTotals [] (lineDeltas lines)).get ⟨i, h⟩ =
        ((lineDeltas lines).take (i + 1)).flatten) ∧
    (∀ t, (replaceLastText t msgs).length = msgs.length) ∧
    (applySnapshots (processLines ⟨[], []⟩ lines).1.snaps msgs).length =
      msgs.length ∧
    (lineDeltas lines ≠ [] →
      applySnapshots (processLines ⟨[], []⟩ lines).1.snaps msgs =
        replaceLastText (String.mk (lineDeltas lines).flatten) msgs ∧
      ((processLines ⟨[], []⟩ lines).1.snaps).getLast? =
        some (lineDeltas lines).flatten) := by
  have hsnaps := (processLines_acc_snaps lines ⟨[], []⟩).2
  simp only [List.nil_append] at hsnaps
  refine ⟨hsnaps, ?_, ?_, ?_, ?_⟩
  · intro i h
    rw [runningTotals_get]
    simp
  · exact fun t => replaceLastText_length t msgs
  · exact applySnapshots_length _ msgs
  · intro hds
    have hlast : ((processLines ⟨[], []⟩ lines).1.snaps).getLast? =
        some (lineDeltas lines).flatten := by
      rw [hsnaps, runningTotals_getLast? _ _ hds]
      simp
    refine ⟨?_, hlast⟩
    obtain ⟨x, xs, hs⟩ : ∃ x xs,
        (processLines ⟨[], []⟩ lines).1.snaps = x :: xs := by
      cases h : (processLines ⟨[], []⟩ lines).1.snaps with
      | nil =>
          rw [h] at hsnaps
          have := runningTotals_length (lineDeltas lines) []
          rw [← hsnaps] at this
          simp at this
          exact absurd (List.length_eq_zero.1 this.symm) hds
      | cons a b => exact ⟨a, b, rfl⟩
    have hxz := getLastD_of_getLast? x ((lineDeltas lines).flatten) xs
      (by rw [← hs]; exact hlast)
    rw [hs]
    show applySnapshots xs (replaceLastText (String.mk x) msgs) = _
    rw [applySnapshots, foldl_replaceLast, hxz]

/-- C2 witness: the theorem at the concrete two-frame scenario, with a
single placeholder message. -/
theorem C2_cumulative_snapshots_witness :
    applySnapshots
        (processLines ⟨[], []⟩
          (splitNL (helloFrame1 ++ frame2a ++ frame2b))).1.snaps
        [{ text := "", sender := Sender.llm, imageUrl := none }] =
      replaceLastText
        (String.mk
          (lineDeltas (splitNL (helloFrame1 ++ frame2a ++ frame2b))).flatten)
        [{ text := "", sender := Sender.llm, imageUrl := none }] :=
  ((C2_cumulative_snapshots (splitNL (helloFrame1 ++ frame2a ++ frame2b))
      [{ text := "", sender := Sender.llm, imageUrl := none }]).2.2.2.2
    (by decide)).1

/-! ### Upstream request payload (App.tsx lines 183-226, for C10) -/

/-- Role strings of the OpenAI-compatible payload. -/
inductive Role where
  | user
  | assistant
  deriving DecidableEq

/-- Mapping `msg.sender === "user" ? "user" : "assistant"`. -/
def roleOf : Sender → Role
  | Sender.user => Role.user
  | Sender.llm => Role.assistant

/-- One part of a structured content list. -/
inductive ApiPart where
  | textPart (text : String)
  | imagePart (url : String)
  deriving DecidableEq

/-- Message content: either a plain text payload or a structured list. -/
inductive ApiContent where
  | plain (text : String)
  | parts (ps : List ApiPart)
  deriving DecidableEq

/-- One `{role, content}` record of the request body. -/
structure ApiMessage where
  role : Role
  content : ApiContent
  deriving DecidableEq

/-- JS `String.prototype.trim`: strip whitespace from both ends. -/
def trimStr (s : String) : String :=
  ⟨((s.data.dropWhile Char.isWhitespace).reverse.dropWhile
      Char.isWhitespace).reverse⟩

/-- Content shaping for the new turn (App.tsx lines 195-220): text part
plus image part when both are present, image part alone when only an
image, the trimmed plain text otherwise. -/
def currentMessageContent (currentInputText : String)
    (currentSelectedImage : Option String) : ApiContent :=
  match currentSelectedImage with
  | some url =>
      if trimStr currentInputText ≠ "" then
        ApiContent.parts
          [ApiPart.textPart (trimStr currentInputText), ApiPart.imagePart url]
      else ApiContent.parts [ApiPart.imagePart url]
  | none => ApiContent.plain (trimStr currentInputText)

/-- Source `messagesForApi` (App.tsx lines 183-226): every prior message is
mapped to `{role, content: msg.text}` — only its text — and the new turn
is appended. -/
def messagesForApi (prior : List Message) (currentInputText : String)
    (currentSelectedImage : Option String) : List ApiMessage :=
  prior.map (fun msg =>
      { role := roleOf msg.sender, content := ApiContent.plain msg.text })
    ++ [{ role := Role.user
          content := currentMessageContent currentInputText
            currentSelectedImage }]

/-! ### Chat controller (`handleSubmit`, App.tsx lines 153-339) -/

/-- The full render-time state the submit handler captures. -/
structure UiState where
  session : SessionState
  inputText : String
  selectedImage : Option String
  imagePreviewUrl : Option String
  isStreaming : Bool
  deriving DecidableEq

/-- How the awaited `fetch` resolves. -/
inductive FetchOutcome where
  | success (chunks : List (List Char))
  | httpError (status : Nat) (serverText : String)
  deriving DecidableEq

/-- The user message appended optimistically (App.tsx lines 158-162). -/
def submittedUserMessage (σ : UiState) : Message :=
  { text := σ.inputText, sender := Sender.user, imageUrl := σ.imagePreviewUrl }

/-- The empty placeholder attributed to the assistant (lines 232-235). -/
def streamingPlaceholder : Message :=
  { text := "", sender := Sender.llm, imageUrl := none }

/-- Message of the error raised on a non-success status (lines 259-261):
carries the status code and the server-supplied error text. -/
def httpErrorMessage (status : Nat) (serverText : String) : String :=
  "HTTP error! Status: " ++ toString status ++ ". " ++ serverText

/-- Text of the chat message built in the catch block (line 321): names
the failure and echoes the configured model and endpoint. -/
def mkErrorText (failureMessage : String) : String :=
  "Error: " ++ failureMessage ++ ". Please ensure LM Studio is running with "
    ++ MODEL_NAME ++ " model loaded at " ++ API_BASE_URL ++ "/chat/completions."

/-- The chat message shown for a failed HTTP exchange. -/
def errorChatMessage (status : Nat) (serverText : String) : Message :=
  { text := mkErrorText (httpErrorMessage status serverText)
    sender := Sender.llm, imageUrl := none }

/-- The catch block's list update (App.tsx lines 326-337): replace the
last message when it is still the empty placeholder, append otherwise. -/
def replaceOrAppendError (errorMessage : Message) (msgs : List Message) :
    List Message :=
  if msgs ≠ [] ∧ (match msgs.getLast? with
                  | some m => m.text
                  | none => "") = "" then
    msgs.dropLast ++ [errorMessage]
  else msgs ++ [errorMessage]

/-- Session state after the synchronous part of `handleSubmit` (lines
157-239), before the `fetch` resolves.  React semantics: the setter calls
are applied in order; `createNewConversation`'s `setMessages([])`
overwrites the optimistic `setMessages(newMessages)`, and the
`setTimeout`-deferred `updateCurrentConversation(newMessages)` tests the
handler's captured `currentConversationId` — still `null` on the
first-submission path — so it updates nothing whenever it fires. -/
def preFetchSession (σ : UiState) (now : Nat) : SessionState :=
  match σ.session.currentConversationId with
  | none =>
      (createNewConversation now
        { σ.session with messages := σ.session.messages ++ [submittedUserMessage σ] }).2
  | some _ =>
      { σ.session with
        messages := σ.session.messages ++ [submittedUserMessage σ]
        conversations :=
          applyUpdateCurrent σ.session.currentConversationId
            (σ.session.messages ++ [submittedUserMessage σ]) now
            σ.session.conversations }

/-- Source `handleSubmit` as a transformer of the render snapshot `σ`, given the
timestamp and the fetch outcome.  On success the decoder accumulates
deltas over the chunk list; each cumulative snapshot replaces the last
message's text and re-writes the active conversation via the captured
`currentConversationId` (a no-op when that captured value is `null`). -/
def handleSubmitRun (σ : UiState) (now : Nat) (outcome : FetchOutcome) :
    UiState :=
  if trimStr σ.inputText = "" ∧ σ.selectedImage = none then σ
  else
    let sess := preFetchSession σ now
    let preMessages := sess.messages ++ [streamingPlaceholder]
    match outcome with
    | FetchOutcome.httpError status serverText =>
        { session := { sess with
            messages :=
              replaceOrAppendError (errorChatMessage status serverText)
                preMessages }
          inputText := "", selectedImage := none, imagePreviewUrl := none
          isStreaming := false }
    | FetchOutcome.success chunks =>
        let snaps := (processStream ⟨[], []⟩ chunks).snaps
        let folded := snaps.foldl
          (fun (p : List Message × List Conversation) cs =>
            let ms := replaceLastText (String.mk cs) p.1
            (ms, applyUpdateCurrent σ.session.currentConversationId ms now p.2))
          (preMessages, sess.conversations)
        { session := { conversations := folded.2
                       currentConversationId := sess.currentConversationId
                       messages := folded.1 }
          inputText := "", selectedImage := none, imagePreviewUrl := none
          isStreaming := false }

/-! ### History payload carries only text (C10) -/

/-- C10: the upstream payload maps every prior message to its text only —
dropping any `imageUrl` — so the payload is unchanged when the images of
prior messages are erased: an image is sent upstream only in the turn in
which it was submitted. -/
theorem C10_history_text_only (prior : List Message) (txt : String)
    (img : Option String) :
    (messagesForApi prior txt img).dropLast =
      prior.map (fun m =>
        { role := roleOf m.sender, content := ApiContent.plain m.text }) ∧
    messagesForApi (prior.map (fun m => { m with imageUrl := none })) txt img =
      messagesForApi prior txt img := by
  constructor
  · rw [messagesForApi, List.dropLast_concat]
  · rw [messagesForApi, messagesForApi, List.map_map]
    rfl

/-! ### Error path (C5) -/

/-- Substring containment: the character sequence of `sub` occurs
contiguously inside that of `s`, witnessed by an explicit decomposition. -/
def containsStr (s sub : String) : Prop :=
  ∃ a b : List Char, s.data = a ++ sub.data ++ b

/-- The state `handleSubmit` reaches on a non-success response when a
conversation is active. -/
theorem handleSubmitRun_httpError_eq (σ : UiState) (now status : Nat)
    (serverText : String) (cid : String)
    (hcid : σ.session.currentConversationId = some cid)
    (hguard : ¬(trimStr σ.inputText = "" ∧ σ.selectedImage = none)) :
    handleSubmitRun σ now (FetchOutcome.httpError status serverText) =
      { session :=
          { conversations :=
              applyUpdateCurrent (some cid)
                (σ.session.messages ++ [submittedUserMessage σ]) now
                σ.session.conversations
            currentConversationId := some cid
            messages := σ.session.messages ++
              [submittedUserMessage σ, errorChatMessage status serverText] }
        inputText := "", selectedImage := none, imagePreviewUrl := none
        isStreaming := false } := by
  unfold handleSubmitRun preFetchSession
  rw [if_neg hguard, hcid]
  simp [replaceOrAppendError, streamingPlaceholder, List.getLast?_concat,
    List.dropLast_concat, List.append_assoc, hcid]

/-- C5: on a non-success HTTP status the raised error carries the status
code and the server-supplied error text; the still-empty placeholder is
replaced (not appended to) by a single error message whose text contains
the status, the server text, the configured model name and the endpoint
URL; no additional conversation is created; and the controller is Idle. -/
theorem C5_http_error_path (σ : UiState) (now status : Nat)
    (serverText : String) (cid : String)
    (hcid : σ.session.currentConversationId = some cid)
    (hguard : ¬(trimStr σ.inputText = "" ∧ σ.selectedImage = none)) :
    containsStr (httpErrorMessage status serverText) (toString status) ∧
    containsStr (httpErrorMessage status serverText) serverText ∧
    (handleSubmitRun σ now
        (FetchOutcome.httpError status serverText)).session.messages =
      σ.session.messages ++
        [submittedUserMessage σ, errorChatMessage status serverText] ∧
    (handleSubmitRun σ now
        (FetchOutcome.httpError status serverText)).session.conversations.length =
      σ.session.conversations.length ∧
    containsStr (errorChatMessage status serverText).text (toString status) ∧
    containsStr (errorChatMessage status serverText).text serverText ∧
    containsStr (errorChatMessage status serverText).text MODEL_NAME ∧
    containsStr (errorChatMessage status serverText).text
      (API_BASE_URL ++ "/chat/completions") ∧
    (handleSubmitRun σ now
        (FetchOutcome.httpError status serverText)).isStreaming = false := by
  have heq := handleSubmitRun_httpError_eq σ now status serverText cid hcid hguard
  refine ⟨?_, ?_, ?_, ?_, ?_, ?_, ?_, ?_, ?_⟩
  · exact ⟨"HTTP error! Status: ".data, ". ".data ++ serverText.data,
      by simp [httpErrorMessage, List.append_assoc]⟩
  · exact ⟨"HTTP error! Status: ".data ++ (toString status).data ++ ". ".data,
      [], by simp [httpErrorMessage, List.append_assoc]⟩
  · rw [heq]
  · rw [heq]
    simp [applyUpdateCurrent]
  · exact ⟨"Error: ".data ++ "HTTP error! Status: ".data,
      ". ".data ++ serverText.data ++
        ". Please ensure LM Studio is running with ".data ++
        MODEL_NAME.data ++ " model loaded at ".data ++ API_BASE_URL.data ++
        "/chat/completions.".data,
      by simp [errorChatMessage, mkErrorText, httpErrorMessage,
        List.append_assoc]⟩
  · exact ⟨"Error: ".data ++ "HTTP error! Status: ".data ++
        (toString status).data ++ ". ".data,
      ". Please ensure LM Studio is running with ".data ++
        MODEL_NAME.data ++ " model loaded at ".data ++ API_BASE_URL.data ++
        "/chat/completions.".data,
      by simp [errorChatMessage, mkErrorText, httpErrorMessage,
        List.append_assoc]⟩
  · exact ⟨"Error: ".data ++ (httpErrorMessage status serverText).data ++
        ". Please ensure LM Studio is running with ".data,
      " model loaded at ".data ++ API_BASE_URL.data ++
        "/chat/completions.".data,
      by simp [errorChatMessage, mkErrorText, List.append_assoc]⟩
  · refine ⟨"Error: ".data ++ (httpErrorMessage status serverText).data ++
        ". Please ensure LM Studio is running with ".data ++
        MODEL_NAME.data ++ " model loaded at ".data, ".".data, ?_⟩
    have hsplit : ("/chat/completions." : String).data =
        "/chat/completions".data ++ ".".data := by decide
    simp [errorChatMessage, mkErrorText, hsplit, List.append_assoc]
  · rw [heq]

/-- C5 witness: the theorem at the concrete 500 / "model not loaded"
scenario on a concrete active conversation. -/
theorem C5_http_error_path_witness :
    (handleSubmitRun
        { session :=
            { conversations := [sampleConv], currentConversationId := some "1"
              messages := [] }
          inputText := "Hi", selectedImage := none, imagePreviewUrl := none
          isStreaming := false }
        99 (FetchOutcome.httpError 500 "model not loaded")).isStreaming =
      false :=
  (C5_http_error_path
      { session :=
          { conversations := [sampleConv], currentConversationId := some "1"
            messages := [] }
        inputText := "Hi", selectedImage := none, imagePreviewUrl := none
        isStreaming := false }
      99 500 "model not loaded" "1" rfl (by decide)).2.2.2.2.2.2.2.2

/-! ### First-submission scenario (C1) -/

/-- The render snapshot of the reference scenario: no conversations, no
active id, the text `"Hello"` typed, no image, not streaming. -/
def helloUiState : UiState :=
  { session := { conversations := [], currentConversationId := none
                 messages := [] }
    inputText := "Hello", selectedImage := none, imagePreviewUrl := none
    isStreaming := false }

/-- The second streamed frame of the scenario, newline-terminated. -/
def helloFrame2 : List Char :=
  "data: \x7b\"choices\":[\x7b\"delta\":\x7b\"content\":\" there\"\x7d\x7d]\x7d\n".toList

/-- C1 (code behavior at the scenario): exactly one conversation is
created and the controller returns to Idle with the assistant text
`"Hi there"`, but — because the deferred `updateCurrentConversation` and
the per-snapshot updates capture the render's `currentConversationId`,
still `null` — the conversation keeps the placeholder title and an empty
message list, and the optimistic user message is wiped from the visible
list by `createNewConversation`'s `setMessages([])`. -/
theorem C1_first_submission_code_behavior :
    handleSubmitRun helloUiState 1756000000000
        (FetchOutcome.success [helloFrame1, helloFrame2, doneChunk]) =
      { session :=
          { conversations :=
              [{ id := "1756000000000", title := placeholderTitle
                 messages := [], createdAt := 1756000000000
                 updatedAt := 1756000000000 }]
            currentConversationId := some "1756000000000"
            messages := [{ text := "Hi there", sender := Sender.llm
                           imageUrl := none }] }
        inputText := "", selectedImage := none, imagePreviewUrl := none
        isStreaming := false } ∧
    placeholderTitle ≠ "Hello" := by
  constructor
  · decide
  · decide

end AMINA
